import Mathlib

/-!
Verification of the converge dependency-resolution core, the user resource,
the param preparer and the status wire schema, shallowly embedded from the
repository sources (load's `ResolveDependencies` and its generators,
`resource/user/user.go`, the param `Preparer`, and the protobuf schema).

Hierarchical vertex IDs are slash-separated strings; they are modelled as
their lists of segments.  The root ID (the empty string) is the empty list.
The ID helpers `ParentID`, `SiblingID`, `AreSiblingIDs` and `IsRoot` of the
graph package are not under the sources; they are modelled from the spec:
`ParentID` drops the last segment, `SiblingID` replaces the last segment,
`AreSiblingIDs` holds when the parents coincide, and `IsRoot` recognises the
empty ID.  The string-level guards for `""` and `"."` in the source collapse
into the root check in this segment-list model.
-/

/-- A hierarchical vertex ID, as its list of slash-separated segments. -/
abbrev ID := List String

/-- Modelled from the spec: `IsRoot(id)` — the empty/root ID. -/
def isRoot (id : ID) : Bool := id.isEmpty

/-- Modelled from the spec: `ParentID(id)` drops the last segment. -/
def parentID (id : ID) : ID := id.dropLast

/-- Modelled from the spec: `SiblingID(id, name)` replaces the last segment. -/
def siblingID (id : ID) (name : String) : ID := id.dropLast ++ [name]

/-- Modelled from the spec: `AreSiblingIDs(a, b)` — same parent. -/
def areSiblingIDs (a b : ID) : Bool := a.dropLast == b.dropLast

/-- The slash-joined string form of an ID, used where the source sorts or
compares whole ID strings (`sort.Strings`). -/
def idStr (id : ID) : String := String.intercalate "/" id

/-- Modelled from the spec: the slice of a `parse.Node` that the dependency
resolver consumes.  The parse package is not under the sources; per the spec a
parse node offers `GetString` (with a `NotFound` sentinel, here `Option`),
`GetStringSlice`, and all string-valued leaves.  The template-accumulator pass
(an external template engine executed with recording functions) is abstracted
into the lists of recorded `param`/`paramList`/`paramMap` call arguments
(`paramCalls`) and recorded reference-function call arguments (`refCalls`). -/
structure ParseNode where
  group : Option String
  depends : Option (List String)
  paramCalls : List String
  refCalls : List String
deriving DecidableEq, Repr

/-- A vertex value: either a parse node or some other payload (`Value()` in Go
is an opaque interface; non-parse payloads are represented by a tag). -/
inductive Value where
  | parseNode (pn : ParseNode)
  | other (tag : Nat)
deriving DecidableEq, Repr

/-- Whether a value is a `*parse.Node` (the Go type assertion). -/
def isParseNodeV : Value → Bool
  | .parseNode _ => true
  | .other _ => false

/-- A labeled directed graph: vertices keyed by ID, and directed
(from, to) dependency edges. -/
structure Graph where
  vertices : List (ID × Value)
  edges : List (ID × ID)
deriving DecidableEq, Repr

/-- `Get(id)` on a graph: the value at a vertex, if present. -/
def Graph.get (g : Graph) (id : ID) : Option Value :=
  (g.vertices.find? (fun p => p.1 == id)).map (·.2)

/-- The climbing loop of `getNearestAncestor`, running over the reversed
segment list of the current scope so that moving to the parent is structural
recursion: a scope with reversed segments `seg :: rest` has the sibling
`(name :: rest).reverse` (its parent's segments followed by `name`), and its
parent has reversed segments `rest`.  The empty reversed list is the root,
where the climb fails. -/
def nearestGo (g : Graph) (name : String) : List String → Option ID
  | [] => none
  | _ :: rest =>
    match g.get ((name :: rest).reverse) with
    | none => nearestGo g name rest
    | some v => if isParseNodeV v then some ((name :: rest).reverse) else none

/-- `getNearestAncestor` from the load package: starting from `id`, probe the
sibling named `name`; if no such vertex exists, recurse to the parent.  When a
sibling vertex is found, succeed only if its value is a parse node. -/
def getNearestAncestor (g : Graph) (id : ID) (name : String) : Option ID :=
  nearestGo g name id.reverse

/-- The climbing loop of `nearestHitSpec`, structured like `nearestGo`. -/
def nearestHitGo (g : Graph) (name : String) : List String → Option (ID × Value)
  | [] => none
  | _ :: rest =>
    match g.get ((name :: rest).reverse) with
    | none => nearestHitGo g name rest
    | some v => some ((name :: rest).reverse, v)

/-- Modelled from the spec (for comparison with `getNearestAncestor`): the
nearest ancestor level, starting at `id` and climbing to the root, at which a
sibling vertex named `name` exists, together with that vertex's value. -/
def nearestHitSpec (g : Graph) (id : ID) (name : String) : Option (ID × Value) :=
  nearestHitGo g name id.reverse

/-- The climbing loop of `getPeerVertex`, running over the reversed segment
list of `dst`: a reversed list `d :: rest` denotes the ancestor
`(d :: rest).reverse` of the original `dst`, and its parent is `rest`. -/
def peerGo (src : ID) : List String → Option ID
  | [] => none
  | d :: rest =>
    if areSiblingIDs src ((d :: rest).reverse) then some ((d :: rest).reverse)
    else peerGo src rest

/-- `getPeerVertex` from the load package: climb from `dst` towards the root
and return the first ancestor of `dst` that is a sibling ID of `src`. -/
def getPeerVertex (src dst : ID) : Option ID :=
  peerGo src dst.reverse

/-- The per-entry loop of `getDepends`: resolve each listed dependency name to
its nearest ancestor vertex; the first unresolvable entry is a fatal error. -/
def depResolve (g : Graph) (id : ID) : List String → Except String (List ID)
  | [] => .ok []
  | d :: ds =>
    match getNearestAncestor g id d with
    | none => .error ("nonexistent vertices in edges: " ++ d)
    | some anc =>
      match depResolve g id ds with
      | .error e => .error e
      | .ok rest => .ok (anc :: rest)

/-- `getDepends` from the load package: the explicit `depends` list of the
parse node, each entry resolved to its nearest ancestor vertex.  An absent
`depends` key (the `ErrNotFound` case of `GetStringSlice`) yields no
dependencies. -/
def getDepends (g : Graph) (id : ID) (pn : ParseNode) : Except String (List ID) :=
  match pn.depends with
  | none => .ok []
  | some ds => depResolve g id ds

/-- The per-call loop of `getParams`: each recorded `param`-family call name
`N` is resolved to the nearest ancestor vertex named `param.N`; the first
unresolvable name is a fatal error. -/
def paramResolve (g : Graph) (id : ID) : List String → Except String (List ID)
  | [] => .ok []
  | v :: vs =>
    match getNearestAncestor g id ("param." ++ v) with
    | none => .error ("unknown parameter: param." ++ v)
    | some anc =>
      match paramResolve g id vs with
      | .error e => .error e
      | .ok rest => .ok (anc :: rest)

/-- `getParams` from the load package, over the recorded template calls of the
parse node (the external template engine's accumulator pass is abstracted into
`ParseNode.paramCalls`). -/
def getParams (g : Graph) (id : ID) (pn : ParseNode) : Except String (List ID) :=
  paramResolve g id pn.paramCalls

/-- The loop body of `getXrefs`: resolve each recorded reference call through
the walk `walk` (the preprocessor's `VertexSplitTraverse` with
`TraverseUntilModule`, which is not under the sources and is therefore an
abstract parameter here).  An unresolvable call is a fatal error; an already
seen target is skipped; otherwise the target is emitted, followed by its peer
vertex when `getPeerVertex` finds one. -/
def xrefGo (walk : String → Option ID) (id : ID) :
    List String → List ID → Except String (List ID)
  | [], _ => .ok []
  | c :: cs, seen =>
    match walk c with
    | none => .error ("dependency generator: unresolvable call to " ++ c)
    | some v =>
      if v ∈ seen then xrefGo walk id cs seen
      else
        match xrefGo walk id cs (v :: seen) with
        | .error e => .error e
        | .ok rest =>
          match getPeerVertex id v with
          | some p => .ok (v :: p :: rest)
          | none => .ok (v :: rest)

/-- `getXrefs` from the load package, over the recorded reference calls of the
parse node. -/
def getXrefs (walk : String → Option ID) (id : ID) (pn : ParseNode) :
    Except String (List ID) :=
  xrefGo walk id pn.refCalls []

/-- The three dependency generators run in order at one vertex
(`getDepends`, `getParams`, `getXrefs`), their outputs concatenated. -/
def vertexDeps (walk : ID → String → Option ID) (g : Graph) (id : ID)
    (pn : ParseNode) : Except String (List ID) :=
  match getDepends g id pn with
  | .error e => .error e
  | .ok ds =>
    match getParams g id pn with
    | .error e => .error e
    | .ok ps =>
      match getXrefs (walk id) id pn with
      | .error e => .error e
      | .ok xs => .ok (ds ++ ps ++ xs)

/-- The group entry contributed by one vertex: its (group, ID) pair when the
parse node's `group` string is present and non-empty. -/
def groupEntry (id : ID) (pn : ParseNode) : List (String × ID) :=
  match pn.group with
  | none => []
  | some grp => if grp = "" then [] else [(grp, id)]

/-- The `Transform` pass of `ResolveDependencies`: at every non-root vertex the
value must be a parse node, the three generators produce dependency targets
(each becoming an edge from the vertex), and the group map collects the
vertex's group entry.  The first failing vertex in vertex-list order aborts
with its error (the Go pass runs vertices concurrently and collects group
entries in a nondeterministic order; the order is immaterial here because the
group pass sorts each group's members before use). -/
def resolvePass (walk : ID → String → Option ID) (g : Graph) :
    List (ID × Value) → Except String (List (ID × ID) × List (String × ID))
  | [] => .ok ([], [])
  | (id, v) :: rest =>
    if isRoot id then resolvePass walk g rest
    else
      match v with
      | .other _ => .error "ResolveDependencies can only be used on Graphs of *parse.Node"
      | .parseNode pn =>
        match vertexDeps walk g id pn with
        | .error e => .error e
        | .ok ds =>
          match resolvePass walk g rest with
          | .error e => .error e
          | .ok (es, gm) =>
            .ok (ds.map (fun d => (id, d)) ++ es, groupEntry id pn ++ gm)

/-- The retargeting helper `groupDep` of the group-serialization pass: replace
an ID by its parent unless that parent is the root. -/
def groupDep (id : ID) : ID :=
  if isRoot (parentID id) then id else parentID id

/-- Lexicographic comparison of character sequences by code point (Go compares
strings byte-wise; on UTF-8 encodings the two orders agree). -/
def lexLt : List Char → List Char → Bool
  | [], [] => false
  | [], _ :: _ => true
  | _ :: _, [] => false
  | c :: cs, d :: ds =>
    if c.val < d.val then true else if d.val < c.val then false else lexLt cs ds

/-- The strict string order used by `sort.Strings`. -/
def strLtB (a b : String) : Bool := lexLt a.toList b.toList

/-- Insertion of an ID into a list sorted ascending by ID string. -/
def insertSorted (x : ID) : List ID → List ID
  | [] => [x]
  | y :: ys => if strLtB (idStr y) (idStr x) then y :: insertSorted x ys else x :: y :: ys

/-- Sorting a list of IDs ascending by their string form (`sort.Strings`). -/
def sortIDs (l : List ID) : List ID := l.foldr insertSorted []

/-- The members recorded for one group name, in collection order. -/
def membersOf (gm : List (String × ID)) (grp : String) : List ID :=
  (gm.filter (fun p => p.1 == grp)).map (·.2)

/-- The group edge for one adjacent pair `(prev, cur)` of sorted members: the
edge `cur → prev`, with both endpoints retargeted through `groupDep` when the
two are not sibling IDs. -/
def mkGroupEdge (cur prev : ID) : ID × ID :=
  if areSiblingIDs cur prev then (cur, prev) else (groupDep cur, groupDep prev)

/-- The edges for all adjacent pairs of one group's sorted member list. -/
def adjEdges : List ID → List (ID × ID)
  | [] => []
  | [_] => []
  | prev :: cur :: rest => mkGroupEdge cur prev :: adjEdges (cur :: rest)

/-- The group-serialization pass: for every group name, sort its members by ID
string ascending and connect each adjacent pair. -/
def groupPassEdges (gm : List (String × ID)) : List (ID × ID) :=
  ((gm.map (·.1)).dedup).flatMap (fun grp => adjEdges (sortIDs (membersOf gm grp)))

/-- `ResolveDependencies` from the load package: the per-vertex generator pass
followed by the group-serialization pass, all produced edges added to the
graph.  A failing vertex aborts the load with its error. -/
def resolveDependencies (walk : ID → String → Option ID) (g : Graph) :
    Except String Graph :=
  match resolvePass walk g g.vertices with
  | .error e => .error e
  | .ok (es, gm) => .ok ⟨g.vertices, g.edges ++ es ++ groupPassEdges gm⟩

/-- The group entries of a vertex list, read off directly: every non-root
parse-node vertex with a non-empty group string contributes its pair. -/
def groupEntriesOf : List (ID × Value) → List (String × ID)
  | [] => []
  | (id, v) :: rest =>
    if isRoot id then groupEntriesOf rest
    else
      (match v with
       | .parseNode pn => groupEntry id pn
       | .other _ => []) ++ groupEntriesOf rest

/-- The sorted member list of one group, read off the graph directly. -/
def groupMembers (g : Graph) (grp : String) : List ID :=
  sortIDs (membersOf (groupEntriesOf g.vertices) grp)

/-- Reachability along the directed edges of an edge list. -/
def Reachable (es : List (ID × ID)) (a b : ID) : Prop :=
  Relation.ReflTransGen (fun x y => (x, y) ∈ es) a b

/-- The slice of `os/user.User` that the user resource reads: the fields
compared by `Check` and `Apply` (`Name` and `Uid`; the struct equality
`*userByName == *userByID` is modelled over these fields). -/
structure GoUser where
  name : String
  uid : String
deriving DecidableEq, Repr

/-- The outcome of a system user lookup: a found user, the matching
unknown-error for that lookup (`user.UnknownUserError` for `Lookup`,
`user.UnknownUserIdError` for `LookupID`), the `ErrUnsupported` sentinel, or
some other error. -/
inductive LookupRes where
  | found (u : GoUser)
  | unknown
  | unsupported
  | otherErr
deriving DecidableEq, Repr

/-- The user of a lookup result, when the lookup succeeded. -/
def LookupRes.toUser : LookupRes → Option GoUser
  | .found u => some u
  | _ => none

/-- Whether a lookup result is the matching unknown-error (the Go type
assertion on the returned error). -/
def LookupRes.isUnknown : LookupRes → Bool
  | .unknown => true
  | _ => false

/-- The `SystemUtils` collaborator of the user resource: name and uid lookups,
group-ID lookup (only its success is consulted), and the results of `AddUser`
and `DelUser` (`none` for success, `some e` for the returned error). -/
structure UserSystem where
  lookupName : String → LookupRes
  lookupID : String → LookupRes
  groupIDExists : String → Bool
  addUserErr : String → Option String
  delUserErr : String → Option String

/-- The configuration fields of the `User` task (`State` is a string type in
the source, with constants `"present"` and `"absent"`). -/
structure UserT where
  uid : String
  gid : String
  username : String
  name : String
  homeDir : String
  state : String
deriving DecidableEq, Repr

/-- Modelled from the spec: the `WarningLevel` of a `TaskStatus`. -/
inductive WarningLevel where
  | noChange
  | willChange
  | wouldInvalidate
  | fatal
deriving DecidableEq, Repr

/-- Modelled from the spec: the slice of `resource.Status` that the user task
populates — the warning level, the output messages, the added differences
(key, original, current), and the `WillChange` flag.  The zero value is
`NoChange` with no output and no differences. -/
structure Status where
  warningLevel : WarningLevel
  output : List String
  diffs : List (String × String × String)
  willChange : Bool
deriving DecidableEq, Repr

/-- The zero `resource.Status`. -/
def Status.zero : Status := ⟨.noChange, [], [], false⟩

/-- A system call made by `Apply` through `SystemUtils`. -/
inductive SysCall where
  | addUser (name : String) (opts : List (String × String))
  | delUser (name : String)
deriving DecidableEq, Repr

/-- `SetUserAddOptions` from the user resource: the option map (modelled as an
association list) passed to `AddUser`. -/
def setUserAddOptions (u : UserT) : List (String × String) :=
  (if u.uid ≠ "" then [("uid", u.uid)] else [])
    ++ (if u.gid ≠ "" then [("gid", u.gid)] else [])
    ++ (if u.name ≠ "" then [("comment", u.name)] else [])
    ++ (if u.homeDir ≠ "" then [("directory", u.homeDir)] else [])

/-- `User.Check` from the user resource, returning the status and the error.
The Go switch statements are rendered as if-chains in source order; in the
two both-found comparison cases both pointers are non-nil in every reachable
state, so the comparisons are guarded by the option matches. -/
def userCheck (u : UserT) (sys : UserSystem) : Status × Option String :=
  let nameRes := sys.lookupName u.username
  let uidRes : Option LookupRes := if u.uid = "" then none else some (sys.lookupID u.uid)
  let userByName := nameRes.toUser
  let userByID : Option GoUser := match uidRes with | some r => r.toUser | none => none
  let nameNotFound := nameRes.isUnknown
  let uidNotFound : Bool := match uidRes with | some r => r.isUnknown | none => false
  if nameRes = .unsupported then
    (⟨.fatal, [], [], false⟩, some "user: not supported on this system")
  else if u.state = "present" then
    if u.uid = "" then
      if userByName.isSome then
        (⟨.fatal, ["user " ++ u.username ++ " already exists"], [], false⟩, none)
      else if nameNotFound then
        if u.gid ≠ "" ∧ ¬ sys.groupIDExists u.gid then
          (⟨.fatal, ["group gid " ++ u.gid ++ " does not exist"], [], false⟩,
            some ("will not add user " ++ u.username))
        else
          (⟨.willChange, ["user does not exist"],
            [("user", "absent", "user " ++ u.username)], true⟩, none)
      else (Status.zero, none)
    else
      if nameNotFound ∧ uidNotFound then
        if u.gid ≠ "" ∧ ¬ sys.groupIDExists u.gid then
          (⟨.fatal, ["group gid " ++ u.gid ++ " does not exist"], [], false⟩,
            some ("will not add user " ++ u.username ++ " with uid " ++ u.uid))
        else
          (⟨.willChange, ["user name and uid do not exist"],
            [("user", "absent", "user " ++ u.username ++ " with uid " ++ u.uid)], true⟩, none)
      else if nameNotFound then
        (⟨.fatal, ["user uid " ++ u.uid ++ " already exists"], [], false⟩, none)
      else if uidNotFound then
        (⟨.fatal, ["user " ++ u.username ++ " already exists"], [], false⟩, none)
      else
        match userByName, userByID with
        | some a, some b =>
          if a.name ≠ b.name ∨ a.uid ≠ b.uid then
            (⟨.fatal, ["user " ++ u.username ++ " and uid " ++ u.uid
              ++ " belong to different users"], [], false⟩, none)
          else (⟨.noChange, [], [], false⟩, none)
        | _, _ => (Status.zero, none)
  else if u.state = "absent" then
    if u.uid = "" then
      if nameNotFound then
        (⟨.fatal, ["user " ++ u.username ++ " does not exist"], [], false⟩, none)
      else if userByName.isSome then
        (⟨.willChange, [], [("user", "user " ++ u.username, "absent")], true⟩, none)
      else (Status.zero, none)
    else
      if nameNotFound ∧ uidNotFound then
        (⟨.noChange, ["user name and uid do not exist"], [], false⟩, none)
      else if nameNotFound then
        (⟨.fatal, ["user " ++ u.username ++ " does not exist"], [], false⟩, none)
      else if uidNotFound then
        (⟨.fatal, ["user uid " ++ u.uid ++ " does not exist"], [], false⟩, none)
      else
        match userByName, userByID with
        | some a, some b =>
          if a.name ≠ b.name ∨ a.uid ≠ b.uid then
            (⟨.fatal, ["user " ++ u.username ++ " and uid " ++ u.uid
              ++ " belong to different users"], [], false⟩, none)
          else
            (⟨.willChange, [],
              [("user", "user " ++ u.username ++ " with uid " ++ u.uid, "absent")], true⟩, none)
        | _, _ => (Status.zero, none)
  else
    (⟨.fatal, [], [], false⟩, some ("user: unrecognized state " ++ u.state))

/-- `User.Apply` from the user resource, returning the status, the error, and
the list of system calls performed (each `AddUser`/`DelUser` invocation is
recorded whether or not it succeeds). -/
def userApply (u : UserT) (sys : UserSystem) : Status × Option String × List SysCall :=
  let nameRes := sys.lookupName u.username
  let uidRes : Option LookupRes := if u.uid = "" then none else some (sys.lookupID u.uid)
  let userByName := nameRes.toUser
  let userByID : Option GoUser := match uidRes with | some r => r.toUser | none => none
  let nameNotFound := nameRes.isUnknown
  let uidNotFound : Bool := match uidRes with | some r => r.isUnknown | none => false
  if nameRes = .unsupported then
    (⟨.fatal, [], [], false⟩, some "user: not supported on this system", [])
  else if u.state = "present" then
    if u.uid = "" then
      if nameNotFound then
        let opts := setUserAddOptions u
        match sys.addUserErr u.username with
        | some e =>
          (⟨.fatal, ["error adding user " ++ u.username], [], false⟩, some e,
            [.addUser u.username opts])
        | none =>
          (⟨.noChange, ["added user " ++ u.username], [], false⟩, none,
            [.addUser u.username opts])
      else
        (⟨.fatal, [], [], false⟩, some ("will not attempt add: user " ++ u.username), [])
    else
      if nameNotFound ∧ uidNotFound then
        let opts := setUserAddOptions u
        match sys.addUserErr u.username with
        | some e =>
          (⟨.fatal, ["error adding user " ++ u.username ++ " with uid " ++ u.uid], [], false⟩,
            some e, [.addUser u.username opts])
        | none =>
          (⟨.noChange, ["added user " ++ u.username ++ " with uid " ++ u.uid], [], false⟩,
            none, [.addUser u.username opts])
      else
        (⟨.fatal, [], [], false⟩,
          some ("will not attempt add: user " ++ u.username ++ " with uid " ++ u.uid), [])
  else if u.state = "absent" then
    if u.uid = "" then
      if ¬ nameNotFound ∧ userByName.isSome then
        match sys.delUserErr u.username with
        | some e =>
          (⟨.fatal, ["error deleting user " ++ u.username], [], false⟩, some e,
            [.delUser u.username])
        | none =>
          (⟨.noChange, ["deleted user " ++ u.username], [], false⟩, none,
            [.delUser u.username])
      else
        (⟨.fatal, [], [], false⟩, some ("will not attempt delete: user " ++ u.username), [])
    else
      if ¬ nameNotFound ∧ ¬ uidNotFound ∧ userByName.isSome ∧ userByID.isSome
          ∧ userByName = userByID then
        match sys.delUserErr u.username with
        | some e =>
          (⟨.fatal, ["error deleting user " ++ u.username ++ " with uid " ++ u.uid], [], false⟩,
            some e, [.delUser u.username])
        | none =>
          (⟨.noChange, ["deleted user " ++ u.username ++ " with uid " ++ u.uid], [], false⟩,
            none, [.delUser u.username])
      else
        (⟨.fatal, [], [], false⟩,
          some ("will not attempt delete: user " ++ u.username ++ " with uid " ++ u.uid), [])
  else
    (⟨.fatal, [], [], false⟩, some ("user: unrecognized state " ++ u.state), [])

/-- The prepared `Param` task carrying its resolved value. -/
structure ParamRes (α : Type) where
  val : α
deriving DecidableEq, Repr

/-- The param `Preparer`: its optional `Default` field (`nil` is `none`). -/
structure ParamPreparer (α : Type) where
  default : Option α
deriving DecidableEq, Repr

/-- `Preparer.Prepare` of the param resource: the renderer-supplied value when
one is present, else the declared default, else the error `param is
required`.  `rendered` is the `render.Value()` pair, `some v` when the value
is reported present (even a zero value). -/
def paramPrepare {α : Type} (p : ParamPreparer α) (rendered : Option α) :
    Except String (ParamRes α) :=
  match rendered with
  | some v => .ok ⟨v⟩
  | none =>
    match p.default with
    | none => .error "param is required"
    | some d => .ok ⟨d⟩

/-- A protobuf field type, as far as the status schema needs. -/
inductive PbType where
  | str
  | boolT
  | enumT (name : String)
  | msgT (name : String)
  | mapT (key val : PbType)
  | repeatedT (t : PbType)
deriving DecidableEq, Repr

/-- A protobuf message field: name, field number, type. -/
structure PbField where
  name : String
  number : Nat
  type : PbType
deriving DecidableEq, Repr

/-- The `StatusResponse` fields of the engine's proto file. -/
def statusResponseFields : List PbField :=
  [⟨"id", 1, .str⟩, ⟨"stage", 2, .enumT "Stage"⟩, ⟨"run", 3, .enumT "Run"⟩,
    ⟨"details", 4, .msgT "Details"⟩]

/-- The `StatusResponse.Stage` enum values of the engine's proto file. -/
def stageValues : List (String × Nat) :=
  [("UNSPECIFIED_STAGE", 0), ("PLAN", 1), ("APPLY", 2)]

/-- The `StatusResponse.Run` enum values of the engine's proto file. -/
def runValues : List (String × Nat) :=
  [("UNSPECIFIED_RUN", 0), ("STARTED", 1), ("FINISHED", 2)]

/-- The `StatusResponse.Details` fields of the engine's proto file. -/
def detailsFields : List PbField :=
  [⟨"messages", 1, .repeatedT .str⟩, ⟨"changes", 2, .mapT .str (.msgT "DiffResponse")⟩,
    ⟨"hasChanges", 3, .boolT⟩, ⟨"error", 4, .str⟩]

/-- The `DiffResponse` fields of the engine's proto file. -/
def diffResponseFields : List PbField :=
  [⟨"original", 1, .str⟩, ⟨"current", 2, .str⟩, ⟨"changes", 3, .boolT⟩]

/-- Modelled from the spec: the reference `StatusResponse` schema, with the
field numbers the claim requires preserved. -/
def specStatusResponseFields : List PbField :=
  [⟨"id", 1, .str⟩, ⟨"stage", 2, .enumT "Stage"⟩, ⟨"run", 3, .enumT "Run"⟩,
    ⟨"details", 4, .msgT "Details"⟩]

/-- Modelled from the spec: the reference `Details` schema
`{messages: [string], changes: map<key, {original, current, changes}>,
hasChanges: bool, error: string}`. -/
def specDetailsFields : List PbField :=
  [⟨"messages", 1, .repeatedT .str⟩, ⟨"changes", 2, .mapT .str (.msgT "DiffResponse")⟩,
    ⟨"hasChanges", 3, .boolT⟩, ⟨"error", 4, .str⟩]

/-- Modelled from the spec: the reference `DiffResponse` schema
`{original, current, changes}`. -/
def specDiffResponseFields : List PbField :=
  [⟨"original", 1, .str⟩, ⟨"current", 2, .str⟩, ⟨"changes", 3, .boolT⟩]

/-- Modelled from the spec: a node value, which may expose a
`Group() string` capability (the test file's `aGroupable`), or be any other
payload (the tests use integers). -/
inductive NVal where
  | int (n : Int)
  | groupable (g : String)
deriving DecidableEq, Repr

/-- Modelled from the spec: the group string inferred from a value — the
value's `Group()` string when the capability is exposed and the string is
non-empty, the empty string otherwise. -/
def groupOf : NVal → String
  | .groupable g => if g = "" then "" else g
  | .int _ => ""

/-- Modelled from the spec: the attributes of a `node.Node` record
(`{ID, Value, Group}`).  `node.go` itself is not under the sources (only its
tests are). -/
structure NodeData where
  id : String
  value : NVal
  group : String
deriving DecidableEq, Repr

/-- Modelled from the spec: `node.New(id, value)` — group inferred from the
value. -/
def Node.new (id : String) (v : NVal) : NodeData := ⟨id, v, groupOf v⟩

/-- Modelled from the spec: the node data produced by `WithValue` — the same
ID, the new value, and the group re-inferred from the new value. -/
def NodeData.withValue (nd : NodeData) (v : NVal) : NodeData := ⟨nd.id, v, groupOf v⟩

/-- Modelled from the spec: a heap of mutable node cells, for stating the
sharing properties of `WithValue`.  A reference is an index into the heap. -/
abbrev Heap := List NodeData

/-- Allocation of a fresh node cell via `node.New`. -/
def heapNew (h : Heap) (id : String) (v : NVal) : Heap × Nat :=
  (h ++ [Node.new id v], h.length)

/-- `WithValue` on the heap: read the source cell and allocate a fresh cell
for the returned node (it shares nothing mutable with the original). -/
def heapWithValue (h : Heap) (r : Nat) (v : NVal) : Option (Heap × Nat) :=
  match h[r]? with
  | none => none
  | some nd => some (h ++ [nd.withValue v], h.length)

/-- Mutation of the attributes of the node cell at `r` (for example
assigning its ID, as the tests do). -/
def heapMutate (h : Heap) (r : Nat) (f : NodeData → NodeData) : Heap :=
  match h[r]? with
  | none => h
  | some nd => h.set r (f nd)

/-- Observation of the node cell at `r`. -/
def heapRead (h : Heap) (r : Nat) : Option NodeData := h[r]?

/-- A parse node with no keys and no recorded template calls. -/
def pnPlain : ParseNode := ⟨none, none, [], []⟩

/-- A parse node whose only key is a group string. -/
def pnGroup (grp : String) : ParseNode := ⟨some grp, none, [], []⟩

/-- A reference walk that resolves nothing. -/
def walkNone : ID → String → Option ID := fun _ _ => none

/-- A two-member sibling group (`task` vertices `a` and `b` in group `apt`,
scenario S1): the loaded graph. -/
def wG : Graph :=
  ⟨[([], .other 0), (["a"], .parseNode (pnGroup "apt")), (["b"], .parseNode (pnGroup "apt"))],
    [(["a"], []), (["b"], [])]⟩

/-- The resolved form of `wG`: the group pass serializes `b` after `a`. -/
def wRes : Graph :=
  ⟨wG.vertices, [(["a"], []), (["b"], []), (["b"], ["a"])]⟩

/-- A two-member group whose members `x/a` and `y/b` live under different
parents: the loaded graph, with child-to-parent containment edges. -/
def cG : Graph :=
  ⟨[([], .other 0), (["x"], .parseNode pnPlain), (["y"], .parseNode pnPlain),
     (["x", "a"], .parseNode (pnGroup "g")), (["y", "b"], .parseNode (pnGroup "g"))],
    [(["x"], []), (["y"], []), (["x", "a"], ["x"]), (["y", "b"], ["y"])]⟩

/-- The resolved form of `cG`: the group edge is retargeted to the parents
`y → x`; no edge touches the members themselves. -/
def cRes : Graph :=
  ⟨cG.vertices,
    [(["x"], []), (["y"], []), (["x", "a"], ["x"]), (["y", "b"], ["y"]), (["y"], ["x"])]⟩

/-- A graph in which the vertex `a/x` carries a non-parse value while the
top-level vertex `x` carries a parse node. -/
def cg3 : Graph :=
  ⟨[(["x"], .parseNode pnPlain), (["a", "x"], .other 1)], []⟩

/-- A parse node with one recorded reference call `r`. -/
def pnRef : ParseNode := ⟨none, none, [], ["r"]⟩

/-- A graph with a vertex `t` holding the reference call `r` and a target
vertex `s`. -/
def g4 : Graph :=
  ⟨[([], .other 0), (["t"], .parseNode pnRef), (["s"], .parseNode pnPlain)],
    [(["t"], []), (["s"], [])]⟩

/-- A reference walk resolving the call `r` to the vertex `s`. -/
def walk4 : ID → String → Option ID := fun _ c => if c = "r" then some ["s"] else none

/-- The resolved form of `g4` under `walk4`: the cross-reference edge
`t → s` is emitted, once for the target and once for its peer (here the
target itself, a sibling of `t`). -/
def g4R : Graph :=
  ⟨g4.vertices, [(["t"], []), (["s"], []), (["t"], ["s"]), (["t"], ["s"])]⟩

/-- A parse node depending on the (absent) name `install-build-essential`
(scenario S3 with the sibling removed). -/
def pnDep : ParseNode := ⟨none, some ["install-build-essential"], [], []⟩

/-- A graph whose only task vertex has an unresolvable `depends` entry. -/
def gD : Graph :=
  ⟨[([], .other 0), (["task.install-jq"], .parseNode pnDep)], [(["task.install-jq"], [])]⟩

/-- A parse node with one recorded `param` call `lang`. -/
def pnPar : ParseNode := ⟨none, none, ["lang"], []⟩

/-- A graph whose only task vertex records an unresolvable parameter call. -/
def gP : Graph :=
  ⟨[([], .other 0), (["task.a"], .parseNode pnPar)], [(["task.a"], [])]⟩

/-- The user task of scenario S4: `state = present`, no UID, no GID. -/
def u0 : UserT := ⟨"", "", "test", "", "", "present"⟩

/-- A target system on which every user lookup reports the unknown error and
every system call succeeds. -/
def sysAbsent : UserSystem :=
  ⟨fun _ => .unknown, fun _ => .unknown, fun _ => true, fun _ => none, fun _ => none⟩

/-- The target system after `test` has been added: the name lookup finds the
user. -/
def sysPresent : UserSystem :=
  ⟨fun n => if n = "test" then .found ⟨"test", "42"⟩ else .unknown,
    fun _ => .unknown, fun _ => true, fun _ => none, fun _ => none⟩

/-- A user task with `state = absent` and no UID. -/
def uAbs : UserT := ⟨"", "", "bob", "", "", "absent"⟩

/-- A user task with `state = absent` and a UID configured. -/
def uAbsU : UserT := ⟨"1000", "", "bob", "", "", "absent"⟩

deriving instance DecidableEq for Except

/-- A set of vertices closed under the edges of `es` contains everything
reachable from any of its members. -/
theorem reachClosed (es : List (ID × ID)) (S : List ID)
    (hcl : ∀ p ∈ es, p.1 ∈ S → p.2 ∈ S) {a b : ID}
    (ha : a ∈ S) (h : Reachable es a b) : b ∈ S := by
  induction h with
  | refl => exact ha
  | tail _ hstep ih => exact hcl _ hstep ih

/-- If some entry of a `depends` list is unresolvable, `depResolve` fails with
the message naming the first unresolvable entry. -/
theorem depResolve_err (g : Graph) (id : ID) (ds : List String) (d : String)
    (hd : d ∈ ds) (hna : getNearestAncestor g id d = none) :
    ∃ d', d' ∈ ds ∧ getNearestAncestor g id d' = none ∧
      depResolve g id ds = .error ("nonexistent vertices in edges: " ++ d') := by
  induction ds with
  | nil => cases hd
  | cons e ds ih =>
    rcases List.mem_cons.mp hd with rfl | hmem
    · exact ⟨d, List.mem_cons_self _ _, hna, by rw [depResolve, hna]⟩
    · cases hy : getNearestAncestor g id e with
      | none => exact ⟨e, List.mem_cons_self _ _, hy, by rw [depResolve, hy]⟩
      | some anc =>
        obtain ⟨d', hd', hna', herr⟩ := ih hmem
        exact ⟨d', List.mem_cons_of_mem _ hd', hna', by rw [depResolve, hy, herr]⟩

/-- If some recorded parameter name is unresolvable, `paramResolve` fails with
the message naming the first unresolvable name. -/
theorem paramResolve_err (g : Graph) (id : ID) (vs : List String) (v : String)
    (hv : v ∈ vs) (hna : getNearestAncestor g id ("param." ++ v) = none) :
    ∃ v', v' ∈ vs ∧ getNearestAncestor g id ("param." ++ v') = none ∧
      paramResolve g id vs = .error ("unknown parameter: param." ++ v') := by
  induction vs with
  | nil => cases hv
  | cons e vs ih =>
    rcases List.mem_cons.mp hv with rfl | hmem
    · exact ⟨v, List.mem_cons_self _ _, hna, by rw [paramResolve, hna]⟩
    · cases hy : getNearestAncestor g id ("param." ++ e) with
      | none => exact ⟨e, List.mem_cons_self _ _, hy, by rw [paramResolve, hy]⟩
      | some anc =>
        obtain ⟨v', hv', hna', herr⟩ := ih hmem
        exact ⟨v', List.mem_cons_of_mem _ hv', hna', by rw [paramResolve, hy, herr]⟩

/-- Every call resolved by the walk and not yet seen contributes its target,
and the target's peer vertex when there is one, to a successful `xrefGo`
output. -/
theorem xrefGo_mem (walk : String → Option ID) (id : ID) :
    ∀ (cs : List String) (seen out : List ID),
      xrefGo walk id cs seen = .ok out →
      ∀ (c : String) (t : ID), c ∈ cs → walk c = some t → t ∉ seen →
        t ∈ out ∧ ∀ p, getPeerVertex id t = some p → p ∈ out := by
  intro cs
  induction cs with
  | nil => intro seen out hok c t hc; cases hc
  | cons c0 cs ih =>
    intro seen out hok c t hc hw ht
    rw [xrefGo] at hok
    cases hw0 : walk c0 with
    | none => rw [hw0] at hok; simp only [] at hok; cases hok
    | some v =>
      rw [hw0] at hok
      simp only [] at hok
      by_cases hvseen : v ∈ seen
      · rw [if_pos hvseen] at hok
        rcases List.mem_cons.mp hc with rfl | hmem
        · rw [hw0] at hw; injection hw with hw; subst hw; exact absurd hvseen ht
        · exact ih seen out hok c t hmem hw ht
      · rw [if_neg hvseen] at hok
        cases hrest : xrefGo walk id cs (v :: seen) with
        | error e => rw [hrest] at hok; cases hok
        | ok rest =>
          rw [hrest] at hok
          by_cases htv : t = v
          · subst htv
            cases hp0 : getPeerVertex id t with
            | some p0 =>
              rw [hp0] at hok; injection hok with hok; subst hok
              refine ⟨List.mem_cons_self _ _, ?_⟩
              intro p hp
              injection hp with hp
              subst hp
              exact List.mem_cons_of_mem _ (List.mem_cons_self _ _)
            | none =>
              rw [hp0] at hok; injection hok with hok; subst hok
              refine ⟨List.mem_cons_self _ _, ?_⟩
              intro p hp
              cases hp
          · rcases List.mem_cons.mp hc with rfl | hmem
            · rw [hw0] at hw; injection hw with hw; exact absurd hw.symm htv
            · have hts : t ∉ v :: seen := by
                intro hx
                rcases List.mem_cons.mp hx with rfl | hx
                · exact htv rfl
                · exact ht hx
              obtain ⟨h1, h2⟩ := ih (v :: seen) rest hrest c t hmem hw hts
              cases hp0 : getPeerVertex id v with
              | some p0 =>
                rw [hp0] at hok; injection hok with hok; subst hok
                exact ⟨List.mem_cons_of_mem _ (List.mem_cons_of_mem _ h1),
                  fun p hp => List.mem_cons_of_mem _ (List.mem_cons_of_mem _ (h2 p hp))⟩
              | none =>
                rw [hp0] at hok; injection hok with hok; subst hok
                exact ⟨List.mem_cons_of_mem _ h1,
                  fun p hp => List.mem_cons_of_mem _ (h2 p hp)⟩

/-- A call the walk cannot resolve makes `xrefGo` fail. -/
theorem xrefGo_err (walk : String → Option ID) (id : ID) :
    ∀ (cs : List String) (seen : List ID) (c : String),
      c ∈ cs → walk c = none → ∃ e, xrefGo walk id cs seen = .error e := by
  intro cs
  induction cs with
  | nil => intro _ _ hc; cases hc
  | cons c0 cs ih =>
    intro seen c hc hw
    rcases List.mem_cons.mp hc with rfl | hmem
    · exact ⟨_, by rw [xrefGo, hw]⟩
    · cases hw0 : walk c0 with
      | none => exact ⟨_, by rw [xrefGo, hw0]⟩
      | some v =>
        by_cases hv : v ∈ seen
        · obtain ⟨e, he⟩ := ih seen c hmem hw
          refine ⟨e, ?_⟩
          rw [xrefGo, hw0]
          simp only []
          rw [if_pos hv]
          exact he
        · obtain ⟨e, he⟩ := ih (v :: seen) c hmem hw
          refine ⟨e, ?_⟩
          rw [xrefGo, hw0]
          simp only []
          rw [if_neg hv, he]

/-- A successful run of the three generators contains every cross-reference
target among its outputs. -/
theorem vertexDeps_ok_parts (walk : ID → String → Option ID) (g : Graph) (id : ID)
    (pn : ParseNode) (ds : List ID) (h : vertexDeps walk g id pn = .ok ds) :
    ∃ xs, getXrefs (walk id) id pn = .ok xs ∧ ∀ x ∈ xs, x ∈ ds := by
  rw [vertexDeps] at h
  cases h1 : getDepends g id pn with
  | error e => rw [h1] at h; cases h
  | ok d1 =>
    rw [h1] at h
    cases h2 : getParams g id pn with
    | error e => rw [h2] at h; cases h
    | ok p1 =>
      rw [h2] at h
      cases h3 : getXrefs (walk id) id pn with
      | error e => rw [h3] at h; cases h
      | ok xs =>
        rw [h3] at h
        injection h with h; subst h
        exact ⟨xs, rfl, fun x hx => by simp [hx]⟩

/-- A failure of any of the three generators makes `vertexDeps` fail. -/
theorem vertexDeps_err (walk : ID → String → Option ID) (g : Graph) (id : ID)
    (pn : ParseNode) (e0 : String)
    (h : getDepends g id pn = .error e0 ∨ getParams g id pn = .error e0 ∨
      getXrefs (walk id) id pn = .error e0) :
    ∃ e, vertexDeps walk g id pn = .error e := by
  rw [vertexDeps]
  cases h1 : getDepends g id pn with
  | error e => exact ⟨e, rfl⟩
  | ok d1 =>
    cases h2 : getParams g id pn with
    | error e => exact ⟨e, rfl⟩
    | ok p1 =>
      cases h3 : getXrefs (walk id) id pn with
      | error e => exact ⟨e, rfl⟩
      | ok xs =>
        rcases h with h | h | h
        · rw [h] at h1; cases h1
        · rw [h] at h2; cases h2
        · rw [h] at h3; cases h3

/-- In a successful resolver pass, every non-root parse-node vertex had its
generators succeed, and every generated dependency became an edge from that
vertex. -/
theorem resolvePass_ok_vertex (walk : ID → String → Option ID) (g : Graph) :
    ∀ (vs : List (ID × Value)) (es : List (ID × ID)) (gm : List (String × ID))
      (v : ID) (pn : ParseNode),
      resolvePass walk g vs = .ok (es, gm) → (v, Value.parseNode pn) ∈ vs →
      isRoot v = false →
      ∃ ds, vertexDeps walk g v pn = .ok ds ∧ ∀ d ∈ ds, (v, d) ∈ es := by
  intro vs
  induction vs with
  | nil => intro es gm v pn _ hmem; cases hmem
  | cons hd tl ih =>
    obtain ⟨id0, v0⟩ := hd
    intro es gm v pn hok hmem hroot
    rw [resolvePass.eq_def] at hok
    simp only [] at hok
    by_cases hr : isRoot id0
    · rw [if_pos hr] at hok
      rcases List.mem_cons.mp hmem with heq | hmem
      · injection heq with h1 h2; subst h1; rw [hroot] at hr; cases hr
      · exact ih es gm v pn hok hmem hroot
    · rw [if_neg hr] at hok
      cases v0 with
      | other tag => cases hok
      | parseNode pn0 =>
        simp only [] at hok
        cases hvd : vertexDeps walk g id0 pn0 with
        | error e => rw [hvd] at hok; cases hok
        | ok ds0 =>
          rw [hvd] at hok
          simp only [] at hok
          cases hrest : resolvePass walk g tl with
          | error e => rw [hrest] at hok; cases hok
          | ok p =>
            obtain ⟨es', gm'⟩ := p
            rw [hrest] at hok
            injection hok with hok
            injection hok with hok1 hok2
            subst hok1
            rcases List.mem_cons.mp hmem with heq | hmem
            · injection heq with h1 h2
              subst h1
              injection h2 with h2
              subst h2
              refine ⟨ds0, hvd, fun d hd => ?_⟩
              exact List.mem_append_left _ (List.mem_map.mpr ⟨d, hd, rfl⟩)
            · obtain ⟨ds, hds, hin⟩ := ih es' gm' v pn hrest hmem hroot
              exact ⟨ds, hds, fun d hd => List.mem_append_right _ (hin d hd)⟩

/-- A non-root parse-node vertex whose generators fail makes the whole
resolver pass fail. -/
theorem resolvePass_err_vertex (walk : ID → String → Option ID) (g : Graph) :
    ∀ (vs : List (ID × Value)) (v : ID) (pn : ParseNode) (e0 : String),
      (v, Value.parseNode pn) ∈ vs → isRoot v = false →
      vertexDeps walk g v pn = .error e0 →
      ∃ e, resolvePass walk g vs = .error e := by
  intro vs
  induction vs with
  | nil => intro v pn e0 hmem; cases hmem
  | cons hd tl ih =>
    obtain ⟨id0, v0⟩ := hd
    intro v pn e0 hmem hroot hvd
    rw [resolvePass.eq_def]
    simp only []
    by_cases hr : isRoot id0
    · rw [if_pos hr]
      rcases List.mem_cons.mp hmem with heq | hmem
      · injection heq with h1 h2; subst h1; rw [hroot] at hr; cases hr
      · exact ih v pn e0 hmem hroot hvd
    · rw [if_neg hr]
      cases v0 with
      | other tag => exact ⟨_, rfl⟩
      | parseNode pn0 =>
        simp only []
        rcases List.mem_cons.mp hmem with heq | hmem
        · injection heq with h1 h2
          subst h1
          injection h2 with h2
          subst h2
          rw [hvd]
          exact ⟨e0, rfl⟩
        · cases hvd0 : vertexDeps walk g id0 pn0 with
          | error e => exact ⟨e, rfl⟩
          | ok ds0 =>
            obtain ⟨e, he⟩ := ih v pn e0 hmem hroot hvd
            rw [he]
            exact ⟨e, rfl⟩

/-- The group map of a successful resolver pass is exactly the group entries
read off the vertex list. -/
theorem resolvePass_gm (walk : ID → String → Option ID) (g : Graph) :
    ∀ (vs : List (ID × Value)) (es : List (ID × ID)) (gm : List (String × ID)),
      resolvePass walk g vs = .ok (es, gm) → gm = groupEntriesOf vs := by
  intro vs
  induction vs with
  | nil =>
    intro es gm hok
    rw [resolvePass] at hok
    injection hok with hok
    injection hok with _ h2
    rw [← h2]
    rfl
  | cons hd tl ih =>
    obtain ⟨id0, v0⟩ := hd
    intro es gm hok
    rw [resolvePass.eq_def] at hok
    simp only [] at hok
    rw [groupEntriesOf.eq_def]
    simp only []
    by_cases hr : isRoot id0
    · rw [if_pos hr] at hok
      rw [if_pos hr]
      exact ih es gm hok
    · rw [if_neg hr] at hok
      rw [if_neg hr]
      cases v0 with
      | other tag => cases hok
      | parseNode pn0 =>
        simp only [] at hok
        simp only []
        cases hvd : vertexDeps walk g id0 pn0 with
        | error e => rw [hvd] at hok; cases hok
        | ok ds0 =>
          rw [hvd] at hok
          simp only [] at hok
          cases hrest : resolvePass walk g tl with
          | error e => rw [hrest] at hok; cases hok
          | ok p =>
            obtain ⟨es', gm'⟩ := p
            rw [hrest] at hok
            injection hok with hok
            injection hok with _ hok2
            rw [← hok2, ih es' gm' hrest]

/-- A failing resolver pass fails `resolveDependencies` with the same error. -/
theorem resolveDependencies_err (walk : ID → String → Option ID) (g : Graph)
    (e : String) (h : resolvePass walk g g.vertices = .error e) :
    resolveDependencies walk g = .error e := by
  rw [resolveDependencies, h]

/-- Every adjacent pair of a member list contributes its group edge. -/
theorem adjEdges_mem : ∀ (l1 : List ID) (prev cur : ID) (l2 : List ID),
    mkGroupEdge cur prev ∈ adjEdges (l1 ++ prev :: cur :: l2) := by
  intro l1
  induction l1 with
  | nil =>
    intro prev cur l2
    rw [List.nil_append, adjEdges]
    exact List.mem_cons_self _ _
  | cons a l1 ih =>
    intro prev cur l2
    have hne : ∃ b t, l1 ++ prev :: cur :: l2 = b :: t := by
      cases l1 <;> exact ⟨_, _, rfl⟩
    obtain ⟨b, t, hbt⟩ := hne
    rw [List.cons_append, hbt, adjEdges, ← hbt]
    exact List.mem_cons_of_mem _ (ih prev cur l2)

/-- A group with at least one member appears among the group names. -/
theorem membersOf_name (grp : String) : ∀ (gm : List (String × ID)),
    membersOf gm grp ≠ [] → grp ∈ gm.map (·.1) := by
  intro gm
  induction gm with
  | nil => intro h; exact absurd rfl h
  | cons p gm ih =>
    intro h
    by_cases hp : p.1 == grp
    · exact List.mem_map.mpr ⟨p, List.mem_cons_self _ _, eq_of_beq hp⟩
    · rw [membersOf, List.filter_cons_of_neg (by simpa using hp)] at h
      exact List.mem_cons_of_mem _ (ih h)

/-- Every adjacent pair of a group's sorted member list contributes its edge
to the group-serialization pass. -/
theorem groupPassEdges_mem (gm : List (String × ID)) (grp : String)
    (l1 : List ID) (prev cur : ID) (l2 : List ID)
    (hs : sortIDs (membersOf gm grp) = l1 ++ prev :: cur :: l2) :
    mkGroupEdge cur prev ∈ groupPassEdges gm := by
  rw [groupPassEdges]
  apply List.mem_flatMap.mpr
  refine ⟨grp, ?_, ?_⟩
  · apply List.mem_dedup.mpr
    apply membersOf_name
    intro hnil
    rw [hnil] at hs
    exact absurd hs.symm (by simp [sortIDs])
  · rw [hs]
    exact adjEdges_mem l1 prev cur l2

/-- The load resolver's climb equals the spec's first-hit climb followed by
the parse-node filter. -/
theorem nearestGo_eq (g : Graph) (n : String) :
    ∀ rl, nearestGo g n rl =
      (nearestHitGo g n rl).bind
        (fun p => if isParseNodeV p.2 then some p.1 else none) := by
  intro rl
  induction rl with
  | nil => rfl
  | cons a rest ih =>
    rw [nearestGo, nearestHitGo]
    cases hg : g.get ((n :: rest).reverse) with
    | none => simpa using ih
    | some v => simp

/-- Claim C1 (amended): after a successful dependency resolution, for every
group and every adjacent pair `(prev, cur)` of its members sorted ascending by
ID string, the resolver adds the edge `cur → prev` when the two are sibling
IDs — so a directed path from `cur` to `prev` exists — and otherwise adds the
edge with each endpoint retargeted to its parent (unless that parent is the
root); in the non-sibling case only this parent-level edge is guaranteed. -/
theorem group_serialization_edges :
    ∀ (walk : ID → String → Option ID) (g g' : Graph) (grp : String)
      (l1 l2 : List ID) (prev cur : ID),
      resolveDependencies walk g = .ok g' →
      groupMembers g grp = l1 ++ prev :: cur :: l2 →
      (areSiblingIDs cur prev = true →
        (cur, prev) ∈ g'.edges ∧ Reachable g'.edges cur prev) ∧
      (areSiblingIDs cur prev = false →
        (groupDep cur, groupDep prev) ∈ g'.edges) := by
  intro walk g g' grp l1 l2 prev cur hok hmems
  rw [resolveDependencies] at hok
  cases hp : resolvePass walk g g.vertices with
  | error e => rw [hp] at hok; cases hok
  | ok p =>
    obtain ⟨es, gm⟩ := p
    rw [hp] at hok
    injection hok with hok
    subst hok
    have hgm : gm = groupEntriesOf g.vertices := resolvePass_gm walk g g.vertices es gm hp
    have hedge : mkGroupEdge cur prev ∈ groupPassEdges gm := by
      apply groupPassEdges_mem gm grp l1 prev cur l2
      rw [hgm]
      exact hmems
    have hmem : mkGroupEdge cur prev ∈ g.edges ++ es ++ groupPassEdges gm := by
      simp [hedge]
    constructor
    · intro hsib
      have hin : (cur, prev) ∈ g.edges ++ es ++ groupPassEdges gm := by
        rw [mkGroupEdge, if_pos hsib] at hmem
        exact hmem
      exact ⟨hin, Relation.ReflTransGen.single hin⟩
    · intro hsib
      rw [mkGroupEdge, hsib] at hmem
      simpa using hmem

/-- Witness for claim C1 at the sibling group of scenario S1: members `a` and
`b` of group `apt` are siblings, so resolution adds the edge `b → a` and a
path from `b` to `a` exists. -/
theorem group_serialization_edges_witness :
    (areSiblingIDs ["b"] ["a"] = true →
      ((["b"], ["a"]) ∈ wRes.edges ∧ Reachable wRes.edges ["b"] ["a"])) ∧
    (areSiblingIDs ["b"] ["a"] = false →
      (groupDep ["b"], groupDep ["a"]) ∈ wRes.edges) :=
  group_serialization_edges walkNone wG wRes "apt" [] [] ["a"] ["b"]
    (by decide) (by decide)

/-- Counterexample to claim C1 as stated: in `cG` the group `g` has the
non-sibling members `x/a < y/b`; resolution succeeds and adds only the
retargeted parent edge `y → x`, and no directed path from `y/b` to `x/a`
exists in the final graph. -/
theorem group_serialization_no_path :
    resolveDependencies walkNone cG = .ok cRes ∧
    groupMembers cG "g" = [["x", "a"], ["y", "b"]] ∧
    areSiblingIDs ["y", "b"] ["x", "a"] = false ∧
    ¬ Reachable cRes.edges ["y", "b"] ["x", "a"] := by
  refine ⟨by decide, by decide, by decide, ?_⟩
  intro h
  have hS := reachClosed cRes.edges [["y", "b"], ["y"], ["x"], []]
    (by decide) (by decide) h
  exact absurd hS (by decide)

/-- Claim C3 (amended): nearest-ancestor resolution probes
`SiblingID(scope, n)` from the vertex upward; it stops at the first scope at
which a sibling vertex exists, succeeding exactly when that first-found
vertex's value is a parse node (a nearer sibling vertex with a non-parse
value hides parse-node siblings at higher levels), and returns that sibling
ID. -/
theorem nearest_ancestor_first_hit :
    ∀ (g : Graph) (id : ID) (n : String),
      getNearestAncestor g id n =
        (nearestHitSpec g id n).bind
          (fun p => if isParseNodeV p.2 then some p.1 else none) := by
  intro g id n
  rw [getNearestAncestor, nearestHitSpec]
  exact nearestGo_eq g n id.reverse

/-- Counterexample to claim C3 as stated: in `cg3`, resolving `x` from vertex
`a/b` fails (the sibling vertex `a/x` exists but holds a non-parse value),
even though the ancestor scope `a` has the sibling vertex `x` whose value is
a parse node. -/
theorem nearest_ancestor_shadowing :
    getNearestAncestor cg3 ["a", "b"] "x" = none ∧
    cg3.get (siblingID (parentID ["a", "b"]) "x") = some (.parseNode pnPlain) ∧
    cg3.get (siblingID ["a", "b"] "x") = some (.other 1) := by decide

/-- Claim C4: whenever a recorded lookup cross-reference at a non-root parse
vertex resolves through the walk to a target, a successful resolution carries
an edge from the vertex to the target, and an edge to the target's peer
vertex when `getPeerVertex` finds one along the walk; an unresolvable lookup
call fails the vertex's generator and the whole resolution. -/
theorem xref_edges :
    (∀ (walk : ID → String → Option ID) (g g' : Graph) (v : ID) (pn : ParseNode)
       (c : String) (t : ID),
       resolveDependencies walk g = .ok g' → (v, Value.parseNode pn) ∈ g.vertices →
       isRoot v = false → c ∈ pn.refCalls → walk v c = some t →
       (v, t) ∈ g'.edges ∧ ∀ p, getPeerVertex v t = some p → (v, p) ∈ g'.edges) ∧
    (∀ (walk : ID → String → Option ID) (g : Graph) (v : ID) (pn : ParseNode)
       (c : String),
       (v, Value.parseNode pn) ∈ g.vertices → isRoot v = false →
       c ∈ pn.refCalls → walk v c = none →
       (∃ e, getXrefs (walk v) v pn = .error e) ∧
       ∃ e, resolveDependencies walk g = .error e) := by
  constructor
  · intro walk g g' v pn c t hok hmem hroot hc hw
    rw [resolveDependencies] at hok
    cases hp : resolvePass walk g g.vertices with
    | error e => rw [hp] at hok; cases hok
    | ok p =>
      obtain ⟨es, gm⟩ := p
      rw [hp] at hok
      injection hok with hok
      subst hok
      obtain ⟨ds, hds, hin⟩ := resolvePass_ok_vertex walk g g.vertices es gm v pn hp hmem hroot
      obtain ⟨xs, hxs, hsub⟩ := vertexDeps_ok_parts walk g v pn ds hds
      rw [getXrefs] at hxs
      obtain ⟨h1, h2⟩ := xrefGo_mem (walk v) v pn.refCalls [] xs hxs c t hc hw
        (List.not_mem_nil t)
      constructor
      · have : (v, t) ∈ es := hin t (hsub t h1)
        simp [this]
      · intro p hp0
        have : (v, p) ∈ es := hin p (hsub p (h2 p hp0))
        simp [this]
  · intro walk g v pn c hmem hroot hc hw
    obtain ⟨e, he⟩ := xrefGo_err (walk v) v pn.refCalls [] c hc hw
    have hx : getXrefs (walk v) v pn = .error e := by rw [getXrefs]; exact he
    refine ⟨⟨e, hx⟩, ?_⟩
    obtain ⟨e1, he1⟩ := vertexDeps_err walk g v pn e (Or.inr (Or.inr hx))
    obtain ⟨e2, he2⟩ := resolvePass_err_vertex walk g g.vertices v pn e1 hmem hroot he1
    exact ⟨e2, resolveDependencies_err walk g e2 he2⟩

/-- Witness for claim C4: in `g4` the reference call `r` at vertex `t`
resolves to `s` under `walk4`, producing the edge `t → s` (and the peer edge,
here again `t → s`); under the walk that resolves nothing, the same call
fails the generator and the resolution. -/
theorem xref_edges_witness :
    ((["t"], ["s"]) ∈ g4R.edges ∧
      (∀ p, getPeerVertex ["t"] ["s"] = some p → (["t"], p) ∈ g4R.edges)) ∧
    ((∃ e, getXrefs (walkNone ["t"]) ["t"] pnRef = .error e) ∧
      ∃ e, resolveDependencies walkNone g4 = .error e) :=
  ⟨xref_edges.1 walk4 g4 g4R ["t"] pnRef "r" ["s"]
      (by decide) (by decide) (by decide) (by decide) (by decide),
    xref_edges.2 walkNone g4 ["t"] pnRef "r"
      (by decide) (by decide) (by decide) (by decide)⟩

/-- Claim C5: an unresolvable `depends` entry fails `getDepends` with a
message of the form `nonexistent vertices in edges: NAME` (naming an
unresolvable entry), an unresolvable recorded parameter name fails
`getParams` with a message of the form `unknown parameter: param.NAME`, and
either failure at a non-root parse vertex makes `resolveDependencies` return
an error instead of any edges. -/
theorem unresolved_reference_errors :
    (∀ (g : Graph) (id : ID) (pn : ParseNode) (d : String),
       d ∈ pn.depends.getD [] → getNearestAncestor g id d = none →
       ∃ d', d' ∈ pn.depends.getD [] ∧ getNearestAncestor g id d' = none ∧
         getDepends g id pn = .error ("nonexistent vertices in edges: " ++ d')) ∧
    (∀ (g : Graph) (id : ID) (pn : ParseNode) (v : String),
       v ∈ pn.paramCalls → getNearestAncestor g id ("param." ++ v) = none →
       ∃ v', v' ∈ pn.paramCalls ∧ getNearestAncestor g id ("param." ++ v') = none ∧
         getParams g id pn = .error ("unknown parameter: param." ++ v')) ∧
    (∀ (walk : ID → String → Option ID) (g : Graph) (id : ID) (pn : ParseNode)
       (e0 : String),
       (id, Value.parseNode pn) ∈ g.vertices → isRoot id = false →
       (getDepends g id pn = .error e0 ∨ getParams g id pn = .error e0) →
       ∃ e, resolveDependencies walk g = .error e) := by
  refine ⟨?_, ?_, ?_⟩
  · intro g id pn d hd hna
    cases hdep : pn.depends with
    | none => rw [hdep] at hd; cases hd
    | some ds =>
      rw [hdep] at hd
      obtain ⟨d', hd', hna', herr⟩ := depResolve_err g id ds d hd hna
      refine ⟨d', hd', hna', ?_⟩
      rw [getDepends, hdep]
      exact herr
  · intro g id pn v hv hna
    obtain ⟨v', hv', hna', herr⟩ := paramResolve_err g id pn.paramCalls v hv hna
    exact ⟨v', hv', hna', by rw [getParams]; exact herr⟩
  · intro walk g id pn e0 hmem hroot hgen
    have hd : getDepends g id pn = .error e0 ∨ getParams g id pn = .error e0 ∨
        getXrefs (walk id) id pn = .error e0 := by
      rcases hgen with h | h
      · exact Or.inl h
      · exact Or.inr (Or.inl h)
    obtain ⟨e1, he1⟩ := vertexDeps_err walk g id pn e0 hd
    obtain ⟨e2, he2⟩ := resolvePass_err_vertex walk g g.vertices id pn e1 hmem hroot he1
    exact ⟨e2, resolveDependencies_err walk g e2 he2⟩

/-- Witness for claim C5 at scenario S3: with the sibling
`install-build-essential` removed from `gD`, `getDepends` fails with the
expected message and `resolveDependencies` fails the load; the unresolved
parameter `lang` in `gP` fails `getParams` with the expected message. -/
theorem unresolved_reference_errors_witness :
    (∃ d', d' ∈ pnDep.depends.getD [] ∧
      getNearestAncestor gD ["task.install-jq"] d' = none ∧
      getDepends gD ["task.install-jq"] pnDep =
        .error ("nonexistent vertices in edges: " ++ d')) ∧
    (∃ v', v' ∈ pnPar.paramCalls ∧
      getNearestAncestor gP ["task.a"] ("param." ++ v') = none ∧
      getParams gP ["task.a"] pnPar = .error ("unknown parameter: param." ++ v')) ∧
    (∃ e, resolveDependencies walkNone gD = .error e) :=
  ⟨unresolved_reference_errors.1 gD ["task.install-jq"] pnDep
      "install-build-essential" (by decide) (by decide),
    unresolved_reference_errors.2.1 gP ["task.a"] pnPar "lang" (by decide) (by decide),
    unresolved_reference_errors.2.2 walkNone gD ["task.install-jq"] pnDep
      "nonexistent vertices in edges: install-build-essential"
      (by decide) (by decide) (Or.inl (by decide))⟩

/-- Claim C2 evaluated on the code (scenario S4): with `state = present`, no
UID, and the user absent, `Check` reports `WillChange` with exactly the one
diff `user: absent → user test`, and `Apply` invokes `AddUser` exactly once;
but the subsequent `Check` on the system where the user now exists reports
`StatusFatal` with `user test already exists` — not `NoChange` as the claim
and the spec's idempotence property require. -/
theorem user_present_cycle_eval :
    userCheck u0 sysAbsent =
      (⟨.willChange, ["user does not exist"], [("user", "absent", "user test")], true⟩,
        none) ∧
    userApply u0 sysAbsent =
      (⟨.noChange, ["added user test"], [], false⟩, none, [.addUser "test" []]) ∧
    userCheck u0 sysPresent =
      (⟨.fatal, ["user test already exists"], [], false⟩, none) ∧
    (userCheck u0 sysPresent).1.warningLevel ≠ WarningLevel.noChange := by decide

/-- Claim C10: with `state = absent` and no UID, a name lookup reporting the
unknown-user error makes `Check` return `StatusFatal` carrying
`user USERNAME does not exist` with a nil error; with a UID configured and
both lookups reporting unknown, `Check` returns `StatusNoChange`. -/
theorem user_absent_check :
    (∀ (u : UserT) (sys : UserSystem),
       u.state = "absent" → u.uid = "" → sys.lookupName u.username = .unknown →
       userCheck u sys =
         (⟨.fatal, ["user " ++ u.username ++ " does not exist"], [], false⟩, none)) ∧
    (∀ (u : UserT) (sys : UserSystem),
       u.state = "absent" → u.uid ≠ "" → sys.lookupName u.username = .unknown →
       sys.lookupID u.uid = .unknown →
       userCheck u sys =
         (⟨.noChange, ["user name and uid do not exist"], [], false⟩, none)) := by
  constructor
  · intro u sys hs hu hn
    rw [userCheck, hn, hs, hu]
    simp [LookupRes.isUnknown, LookupRes.toUser]
  · intro u sys hs hu hn hi
    rw [userCheck, hn, hs, hi]
    simp [LookupRes.isUnknown, LookupRes.toUser, hu]

/-- Witness for claim C10: the task `bob` with `state = absent` against the
all-absent system, without and with a configured UID. -/
theorem user_absent_check_witness :
    userCheck uAbs sysAbsent =
      (⟨.fatal, ["user " ++ uAbs.username ++ " does not exist"], [], false⟩, none) ∧
    userCheck uAbsU sysAbsent =
      (⟨.noChange, ["user name and uid do not exist"], [], false⟩, none) :=
  ⟨user_absent_check.1 uAbs sysAbsent (by decide) (by decide) (by decide),
    user_absent_check.2 uAbsU sysAbsent (by decide) (by decide) (by decide) (by decide)⟩

/-- Claim C6: constructing a node sets its `Group` field to the value's
`Group()` string when the value exposes the capability and the string is
non-empty, and to the empty string otherwise — for `New` and for
`WithValue` alike. -/
theorem node_group_inference :
    ∀ (id : String) (nd : NodeData) (g : String) (k : Int),
      (g ≠ "" → (Node.new id (.groupable g)).group = g ∧
        (nd.withValue (.groupable g)).group = g) ∧
      (Node.new id (.int k)).group = "" ∧ (nd.withValue (.int k)).group = "" ∧
      (Node.new id (.groupable "")).group = "" ∧
      (nd.withValue (.groupable "")).group = "" := by
  intro id nd g k
  refine ⟨fun hg => ⟨?_, ?_⟩, ?_, ?_, ?_, ?_⟩ <;>
    simp [Node.new, NodeData.withValue, groupOf]
  · exact fun h => absurd h hg
  · exact fun h => absurd h hg

/-- Witness for claim C6 at the test's inputs: a groupable value with group
`somegroup` and an integer value. -/
theorem node_group_inference_witness :
    (Node.new "test" (.groupable "somegroup")).group = "somegroup" ∧
    ((Node.new "test" (.int 1)).withValue (.groupable "somegroup")).group = "somegroup" ∧
    (Node.new "test" (.int 1)).group = "" := by
  have h := node_group_inference "test" (Node.new "test" (.int 1)) "somegroup" 1
  exact ⟨(h.1 (by decide)).1, (h.1 (by decide)).2, h.2.1⟩

/-- Claim C7: a node produced by `WithValue` carries the new value and shares
nothing mutable with the original: it lives in a fresh cell, and mutating
either cell's attributes is not observable through the other. -/
theorem with_value_no_sharing :
    ∀ (h : Heap) (id : String) (v v' : NVal) (h1 h2 : Heap) (r1 r2 : Nat),
      heapNew h id v = (h1, r1) →
      heapWithValue h1 r1 v' = some (h2, r2) →
      (heapRead h2 r2).map NodeData.value = some v' ∧ r1 ≠ r2 ∧
      (∀ f, heapRead (heapMutate h2 r1 f) r2 = heapRead h2 r2) ∧
      (∀ f, heapRead (heapMutate h2 r2 f) r1 = heapRead h2 r1) := by
  intro h id v v' h1 h2 r1 r2 hnew hwv
  rw [heapNew] at hnew
  injection hnew with e1 e2
  subst e1
  subst e2
  rw [heapWithValue] at hwv
  have hget : (h ++ [Node.new id v])[h.length]? = some (Node.new id v) := by simp
  rw [hget] at hwv
  injection hwv with hwv
  injection hwv with e3 e4
  subst e3
  subst e4
  have hlen : h.length < (h ++ [Node.new id v]).length := by simp
  have hne : h.length ≠ (h ++ [Node.new id v]).length := Nat.ne_of_lt hlen
  have hg1 : ((h ++ [Node.new id v]) ++ [(Node.new id v).withValue v'])[h.length]? =
      some (Node.new id v) := by
    rw [List.getElem?_append_left hlen]
    exact hget
  have hg2 :
      ((h ++ [Node.new id v]) ++
        [(Node.new id v).withValue v'])[(h ++ [Node.new id v]).length]? =
      some ((Node.new id v).withValue v') := by
    rw [List.getElem?_append_right (Nat.le_refl _)]
    simp
  refine ⟨?_, hne, ?_, ?_⟩
  · rw [heapRead, hg2]
    simp [NodeData.withValue]
  · intro f
    rw [heapMutate, hg1]
    rw [heapRead, heapRead, List.getElem?_set_ne hne]
  · intro f
    rw [heapMutate, hg2]
    rw [heapRead, heapRead, List.getElem?_set_ne (Ne.symm hne)]

/-- Witness for claim C7 on the test's inputs: a fresh heap, `New` with value
1, `WithValue` with value 2. -/
theorem with_value_no_sharing_witness :
    (heapRead [⟨"test", .int 1, ""⟩, ⟨"test", .int 2, ""⟩] 1).map NodeData.value =
      some (.int 2) ∧
    (0 : Nat) ≠ 1 ∧
    (∀ f, heapRead (heapMutate [⟨"test", .int 1, ""⟩, ⟨"test", .int 2, ""⟩] 0 f) 1 =
      heapRead [⟨"test", .int 1, ""⟩, ⟨"test", .int 2, ""⟩] 1) ∧
    (∀ f, heapRead (heapMutate [⟨"test", .int 1, ""⟩, ⟨"test", .int 2, ""⟩] 1 f) 0 =
      heapRead [⟨"test", .int 1, ""⟩, ⟨"test", .int 2, ""⟩] 0) :=
  with_value_no_sharing [] "test" (.int 1) (.int 2)
    [⟨"test", .int 1, ""⟩] [⟨"test", .int 1, ""⟩, ⟨"test", .int 2, ""⟩] 0 1
    (by decide) (by decide)

/-- Claim C8: the engine's status wire schema equals the spec's reference
schema with field numbers preserved, with `Stage` carrying `PLAN = 1` and
`APPLY = 2` and `Run` carrying `STARTED = 1` and `FINISHED = 2`. -/
theorem status_wire_schema :
    statusResponseFields = specStatusResponseFields ∧
    detailsFields = specDetailsFields ∧
    diffResponseFields = specDiffResponseFields ∧
    ("PLAN", 1) ∈ stageValues ∧ ("APPLY", 2) ∈ stageValues ∧
    ("STARTED", 1) ∈ runValues ∧ ("FINISHED", 2) ∈ runValues := by decide

/-- Claim C9: the param preparer returns the renderer-supplied value whenever
one is present (any value, including a zero value), otherwise the declared
default, and fails with exactly `param is required` exactly when no value is
present and no default is declared. -/
theorem param_prepare_semantics :
    ∀ (α : Type) (p : ParamPreparer α) (v d : α) (r : Option α) (e : String),
      paramPrepare p (some v) = .ok ⟨v⟩ ∧
      paramPrepare (⟨some d⟩ : ParamPreparer α) none = .ok ⟨d⟩ ∧
      paramPrepare (⟨none⟩ : ParamPreparer α) none = .error "param is required" ∧
      (paramPrepare p r = .error e ↔
        r = none ∧ p.default = none ∧ e = "param is required") := by
  intro α p v d r e
  obtain ⟨pd⟩ := p
  refine ⟨rfl, rfl, rfl, ?_⟩
  cases r with
  | some x => simp [paramPrepare]
  | none =>
    cases pd with
    | none => simp [paramPrepare, eq_comm]
    | some y => simp [paramPrepare]
